import Mathlib

/-!
Verification of the Chunkis CIS decoder (src/read_cis.py) against its
natural-language specification.

The decoder is shallowly embedded: Python bytes objects become `List Nat`
(each entry a byte value; the source masks with `& 0xFF` where it reads),
Python ints become `Nat`/`Int`, sequential `io.BytesIO` reads become
take/drop on the remaining byte list, and Python exceptions
(`struct.error`, `IndexError`, `TypeError`, `zlib.error`) become `none`
or the `DecodeOutcome.err` constructor.
-/

/-! ## BitReader (src/read_cis.py lines 11-37) -/

/-- State of the bit-level reader: byte buffer plus cursor, exactly the three
fields of the Python class `BitReader`. -/
structure BitReader where
  data : List Nat
  byte_index : Nat
  bit_index : Nat
deriving DecidableEq

/-- The while loop inside `BitReader.read`.  Arguments: fuel, remaining `bits`,
`byte_index`, `bit_index`, accumulated `result`.  Each Python iteration
consumes `take = min (8 - bit_index) bits ≥ 1` bits whenever the cursor
invariant `bit_index < 8` holds, so `fuel = bits` (supplied by
`BitReader.read`) always suffices and the fuel-out branch is unreachable for
reachable reader states.  `result << take | chunk` is written
`result * 2 ^ take + chunk`: the shifted result has zero low bits and
`chunk < 2 ^ take`, so bitwise or coincides with addition; likewise
`b >> k & mask` is division and remainder. -/
def readLoop (data : List Nat) : Nat → Nat → Nat → Nat → Nat → Nat × Nat × Nat
  | 0, _, byteIdx, bitIdx, acc => (acc, byteIdx, bitIdx)
  | fuel + 1, bits, byteIdx, bitIdx, acc =>
    if bits = 0 then (acc, byteIdx, bitIdx)
    else if data.length ≤ byteIdx then (acc * 2 ^ bits, byteIdx, bitIdx)
    else
      let b := data.getD byteIdx 0 % 256
      let remaining := 8 - bitIdx
      let tk := min remaining bits
      let chunk := b / 2 ^ (remaining - tk) % 2 ^ tk
      let acc2 := acc * 2 ^ tk + chunk
      if bitIdx + tk = 8 then
        readLoop data fuel (bits - tk) (byteIdx + 1) 0 acc2
      else
        readLoop data fuel (bits - tk) byteIdx (bitIdx + tk) acc2

/-- `BitReader.read`: returns the value and the advanced reader.
`if bits == 0: return 0` is the first line of the source. -/
def BitReader.read (r : BitReader) (bits : Nat) : Nat × BitReader :=
  if bits = 0 then (0, r)
  else
    let t := readLoop r.data bits bits r.byte_index r.bit_index 0
    (t.1, ⟨r.data, t.2.1, t.2.2⟩)

/-- `BitReader.read_bool`: `self.read(1) == 1`. -/
def BitReader.read_bool (r : BitReader) : Bool × BitReader :=
  let t := r.read 1
  (t.1 == 1, t.2)

/-- The pure zigzag formula `(n >> 1) ^ -(n & 1)` applied to the unsigned
value `n` returned by `read`; Python int xor with the arbitrary-precision
negative operand is `Int.xor`. -/
def zigzagDecode (n : Nat) : Int :=
  Int.xor (Int.ofNat (n >>> 1)) (-(Int.ofNat (n &&& 1)))

/-- `BitReader.read_zigzag`. -/
def BitReader.read_zigzag (r : BitReader) (bits : Nat) : Int × BitReader :=
  let t := r.read bits
  (zigzagDecode t.1, t.2)

/-! ## Python helpers -/

/-- Python `int.bit_length` via a fuel-bounded halving loop (`fuel = n`
suffices since the argument halves each step). -/
def bitLenAux : Nat → Nat → Nat
  | 0, _ => 0
  | fuel + 1, n => if n = 0 then 0 else bitLenAux fuel (n / 2) + 1

/-- Python `n.bit_length()`. -/
def bit_length (n : Nat) : Nat := bitLenAux n n

/-- `struct.unpack(">I", bs)`: requires exactly four bytes, else
`struct.error` (modelled as `none`). -/
def unpackU32 : List Nat → Option Nat
  | [a, b, c, d] => some (a * 16777216 + b * 65536 + c * 256 + d)
  | _ => none

/-- `struct.unpack(">H", bs)`: requires exactly two bytes. -/
def unpackU16 : List Nat → Option Nat
  | [a, b] => some (a * 256 + b)
  | _ => none

/-- `get_facing_str` (src lines 39-41): the facing dictionary lookup,
`None` for any other value. -/
def get_facing_str (facing_id : Nat) : Option String :=
  if facing_id = 0 then some "down"
  else if facing_id = 1 then some "up"
  else if facing_id = 2 then some "north"
  else if facing_id = 3 then some "south"
  else if facing_id = 4 then some "west"
  else if facing_id = 5 then some "east"
  else none

/-! ## Micro-cube codec (src/read_cis.py lines 96-125) -/

/-- One decoded block change (the dict appended at src line 119). -/
structure BlockChange where
  x : Nat
  y : Int
  z : Nat
  state : String
deriving DecidableEq

/-- The state expression at src line 121:
`global_palette[gid] if gid < len(global_palette) else "INVALID"`. -/
def resolveState (global_palette : List String) (gid : Nat) : String :=
  if h : gid < global_palette.length then global_palette.get ⟨gid, h⟩ else "INVALID"

/-- The list comprehension `[reader.read(16) for _ in range(palette_size)]`
(src line 100), evaluated left to right. -/
def readLocalPalette : Nat → BitReader → List Nat × BitReader
  | 0, r => ([], r)
  | k + 1, r =>
    let t := r.read 16
    let rest := readLocalPalette k t.2
    (t.1 :: rest.1, rest.2)

/-- The id part of one block record (src lines 110-113): when the local
palette has more than one entry, a flag bit selects between re-reading the
id and reusing `last_lid`; a single-entry palette reads nothing. -/
def readIdStep (r : BitReader) (palette_size bits_per_id last_lid : Nat) :
    Nat × BitReader :=
  if 1 < palette_size then
    let t := r.read_bool
    if t.1 then t.2.read bits_per_id else (last_lid, t.2)
  else (last_lid, r)

/-- `bits_per_id = (palette_size - 1).bit_length() if palette_size > 1 else 0`
(src line 102). -/
def bitsPerId (palette_size : Nat) : Nat :=
  if 1 < palette_size then bit_length (palette_size - 1) else 0

/-- The per-block loop of `decode_micro_cube` (src lines 106-124).
Arguments after the fixed ones: remaining count, reader, `last_ly`,
`last_lxz`, `last_lid`.  `local_to_global[lid]` is plain Python list
indexing, which raises `IndexError` when `lid` is at or past the end of the
local palette: that is the `none` branch. -/
def decodeBlocks (global_palette : List String) (local_to_global : List Nat)
    (palette_size bits_per_id : Nat) (sy : Int) :
    Nat → BitReader → Int → Nat → Nat → Option (List BlockChange × BitReader)
  | 0, r, _, _, _ => some ([], r)
  | n + 1, r, last_ly, last_lxz, last_lid =>
    let t1 := r.read_bool
    let t2 := if t1.1 then t1.2.read_zigzag 6 else (0, t1.2)
    let t3 := t2.2.read_bool
    let t4 := if t3.1 then t3.2.read 8 else (last_lxz, t3.2)
    let t5 := readIdStep t4.2 palette_size bits_per_id last_lid
    let ly := last_ly + t2.1
    let bx := t4.1 % 16
    let bz := t4.1 / 16
    match local_to_global[t5.1]? with
    | none => none
    | some gid =>
      let blk : BlockChange := ⟨bx, sy * 16 + ly, bz, resolveState global_palette gid⟩
      match decodeBlocks global_palette local_to_global palette_size bits_per_id sy
          n t5.2 ly t4.1 t5.1 with
      | none => none
      | some res => some (blk :: res.1, res.2)

/-- `CISDecoder.decode_micro_cube` (src lines 96-125).  `mx`, `my`, `mz` are
passed by the caller but unused by the body, exactly as in the source.
`y = (sy << 4) + ly` is `sy * 16 + ly` (left shift of a Python int is exact
multiplication, also for negatives).  A raised `IndexError` is `none`. -/
def CISDecoder.decode_micro_cube (reader : BitReader) (global_palette : List String)
    (mx my mz : Nat) (sy : Int) : Option (List BlockChange × BitReader) :=
  let t0 := reader.read 8
  if t0.1 = 0 then some ([], t0.2)
  else
    let t1 := readLocalPalette t0.1 t0.2
    let t2 := t1.2.read 7
    decodeBlocks global_palette t1.1 t0.1 (bitsPerId t0.1) sy t2.1 t2.2 0 0 0

/-! ## Chunk codec (src/read_cis.py lines 48-94) -/

/-- The decoded chunk dict returned at src lines 89-94. -/
structure ChunkRecord where
  version : Nat
  palette : List String
  blocks : List BlockChange
  be_count : Nat
deriving DecidableEq

/-- Observable outcome of `CISDecoder.decode_chunk`: a raised exception
(`err`), the returned `None` (`noChunk`), or the returned dict (`chunk`). -/
inductive DecodeOutcome where
  | err : DecodeOutcome
  | noChunk : DecodeOutcome
  | chunk : ChunkRecord → DecodeOutcome
deriving DecidableEq

/-- The global-palette loop (src lines 58-66).  Per entry: two bytes for the
mapping id, via `struct.unpack(">H", ...)`, then `ord(self.f.read(1))`
(raises when no byte is left); the name is `mapping.get(id, "unknown_<id>")`
plus the facing suffix when `get_facing_str` is not `None`. -/
def readGlobalPalette (mapping : Nat → Option String) :
    Nat → List Nat → Option (List String × List Nat)
  | 0, f => some ([], f)
  | k + 1, f =>
    match unpackU16 (f.take 2) with
    | none => none
    | some mapping_id =>
      match (f.drop 2).take 1 with
      | [facing_data] =>
        let base_name := (mapping mapping_id).getD ("unknown_" ++ toString mapping_id)
        let full_name := base_name ++
          (match get_facing_str facing_data with
           | some s => "[facing=" ++ s ++ "]"
           | none => "")
        match readGlobalPalette mapping k ((f.drop 2).drop 1) with
        | none => none
        | some res => some (full_name :: res.1, res.2)
      | _ => none

/-- The 64 micro-cube invocations of one section, as `(mx, my, mz)` triples
in encounter order of the nested loops at src lines 83-85: `my` outermost,
then `mz`, then `mx`, each over `range(4)`. -/
def cubeOrder : List (Nat × Nat × Nat) :=
  (List.range 4).flatMap fun my =>
    (List.range 4).flatMap fun mz =>
      (List.range 4).map fun mx => (mx, my, mz)

/-- Sequentially decode micro-cubes for the given coordinate triples,
concatenating their block lists in encounter order (`all_blocks.extend`). -/
def decodeMicroCubes (global_palette : List String) (sy : Int) :
    List (Nat × Nat × Nat) → BitReader → Option (List BlockChange × BitReader)
  | [], r => some ([], r)
  | c :: rest, r =>
    match CISDecoder.decode_micro_cube r global_palette c.1 c.2.1 c.2.2 sy with
    | none => none
    | some res =>
      match decodeMicroCubes global_palette sy rest res.2 with
      | none => none
      | some res2 => some (res.1 ++ res2.1, res2.2)

/-- The section loop (src lines 81-87): per section a 16-bit zigzag
`section_y`, then the 64 micro-cubes in `cubeOrder`. -/
def decodeSections (global_palette : List String) :
    Nat → BitReader → Option (List BlockChange × BitReader)
  | 0, r => some ([], r)
  | k + 1, r =>
    let t := r.read_zigzag 16
    match decodeMicroCubes global_palette t.1 cubeOrder t.2 with
    | none => none
    | some res =>
      match decodeSections global_palette k res.2 with
      | none => none
      | some res2 => some (res.1 ++ res2.1, res2.2)

/-- `CISDecoder.decode_chunk` (src lines 48-94) over the remaining bytes of
the sequential stream `self.f` (an `io.BytesIO`: `read n` yields up to `n`
bytes, i.e. `take n` / `drop n`).  Faithful points: an empty magic read
returns `None`; a wrong 4-byte magic also returns `None` (src line 52); a
1-3 byte read fed to `struct.unpack` raises (`err`); `be_count` falls back
to `0` only when its read returns no bytes at all (Python truthiness of the
bytes object, src line 74). -/
def CISDecoder.decode_chunk (mapping : Nat → Option String) (f0 : List Nat) :
    DecodeOutcome :=
  let magic_bytes := f0.take 4
  let f1 := f0.drop 4
  if magic_bytes.isEmpty then .noChunk
  else
    match unpackU32 magic_bytes with
    | none => .err
    | some magic =>
      if magic ≠ 0x43495334 then .noChunk
      else
        match unpackU32 (f1.take 4) with
        | none => .err
        | some version =>
          let f2 := f1.drop 4
          match unpackU32 (f2.take 4) with
          | none => .err
          | some palette_size =>
            let f3 := f2.drop 4
            match readGlobalPalette mapping palette_size f3 with
            | none => .err
            | some gp =>
              match unpackU32 (gp.2.take 4) with
              | none => .err
              | some inst_len =>
                let f4 := gp.2.drop 4
                let inst_data := f4.take inst_len
                let f5 := f4.drop inst_len
                let be_count_data := f5.take 4
                match (if be_count_data.isEmpty then some 0
                       else unpackU32 be_count_data) with
                | none => .err
                | some be_count =>
                  let reader : BitReader := ⟨inst_data, 0, 0⟩
                  let t := reader.read 16
                  match decodeSections gp.1 t.1 t.2 with
                  | none => .err
                  | some res => .chunk ⟨version, gp.1, res.1, be_count⟩

/-! ## Region container reader (src/read_cis.py lines 235-250) -/

/-- What `parse_region` does for the offset-table slot `i`: unpack the
8-byte `(offset, length)` entry, and for a populated slot seek/read the
compressed bytes, decompress and decode them, yielding the `(local pos,
chunk)` row; `none` when the slot is empty, the decompression or the decode
raises (the bare `except: pass` at src line 250), or `decode_chunk` returns
`None` (`if chunk_data:` at src line 244).  `decompress` abstracts
`zlib.decompress`, `none` standing for `zlib.error`.  The source unpacks
`header[i*8 : i*8+8]` with `">II"` in one call; here it is two 4-byte
unpacks, identical whenever the slice is full — which the caller
guarantees, since `load_file` only reaches `parse_region` with a header of
exactly 2048 bytes (src lines 226-231). -/
def slotDecode (decompress : List Nat → Option (List Nat))
    (mapping : Nat → Option String) (fileData header : List Nat) (i : Nat) :
    Option ((Nat × Nat) × ChunkRecord) :=
  match unpackU32 ((header.drop (i * 8)).take 4),
        unpackU32 ((header.drop (i * 8 + 4)).take 4) with
  | some off, some len =>
    if 0 < off ∧ 0 < len then
      match decompress ((fileData.drop off).take len) with
      | none => none
      | some dec =>
        match CISDecoder.decode_chunk mapping dec with
        | .chunk c => some ((i % 16, i / 16), c)
        | _ => none
    else none
  | _, _ => none

/-- The `for i in range(256)` loop of `parse_region`, written with an
ascending index `i` and a descending iteration count, the slot body inlined
as in the source. -/
def parseRegionGo (decompress : List Nat → Option (List Nat))
    (mapping : Nat → Option String) (fileData header : List Nat) :
    Nat → Nat → List ((Nat × Nat) × ChunkRecord)
  | _, 0 => []
  | i, k + 1 =>
    (match unpackU32 ((header.drop (i * 8)).take 4),
           unpackU32 ((header.drop (i * 8 + 4)).take 4) with
     | some off, some len =>
       if 0 < off ∧ 0 < len then
         match decompress ((fileData.drop off).take len) with
         | none => []
         | some dec =>
           match CISDecoder.decode_chunk mapping dec with
           | .chunk c => [((i % 16, i / 16), c)]
           | _ => []
       else []
     | _, _ => []) ++ parseRegionGo decompress mapping fileData header (i + 1) k

/-- `CISVisualizer.parse_region` (src lines 235-250), as the list of
`(local coordinates, chunk)` rows it accumulates over the 256 slots.  The
GUI inserts are presentation only. -/
def CISVisualizer.parse_region (decompress : List Nat → Option (List Nat))
    (mapping : Nat → Option String) (fileData header : List Nat) :
    List ((Nat × Nat) × ChunkRecord) :=
  parseRegionGo decompress mapping fileData header 0 256

/-- Serialize a 4-byte big-endian word, for building test payloads. -/
def u32be (n : Nat) : List Nat :=
  [n / 16777216 % 256, n / 65536 % 256, n / 256 % 256, n % 256]

/-- The CIS4 magic bytes. -/
def magicBytes : List Nat := [0x43, 0x49, 0x53, 0x34]

/-- A mapping table with no entries (every id resolves to `unknown_<id>`). -/
def emptyMapping : Nat → Option String := fun _ => none

/-! ## BitReader lemmas -/

theorem readLoop_bitIdx_lt (data : List Nat) :
    ∀ fuel bits byteIdx bitIdx acc, bitIdx < 8 →
      (readLoop data fuel bits byteIdx bitIdx acc).2.2 < 8 := by
  intro fuel
  induction fuel with
  | zero => intro bits bi ti acc h; simpa [readLoop] using h
  | succ fuel ih =>
    intro bits bi ti acc h
    simp only [readLoop]
    split
    · exact h
    · split
      · exact h
      · split
        · exact ih _ _ _ _ (by norm_num)
        · rename_i hbits hlen hne
          have htk : min (8 - ti) bits ≤ 8 - ti := Nat.min_le_left _ _
          exact ih _ _ _ _ (by omega)

theorem readLoop_pos_le (data : List Nat) :
    ∀ fuel bits byteIdx bitIdx acc,
      8 * byteIdx + bitIdx ≤
        8 * (readLoop data fuel bits byteIdx bitIdx acc).2.1 +
          (readLoop data fuel bits byteIdx bitIdx acc).2.2 := by
  intro fuel
  induction fuel with
  | zero => intro bits bi ti acc; simp [readLoop]
  | succ fuel ih =>
    intro bits bi ti acc
    simp only [readLoop]
    split
    · simp
    · split
      · simp
      · split
        · rename_i hbits hlen heq
          calc 8 * bi + ti ≤ 8 * (bi + 1) + 0 := by omega
            _ ≤ _ := ih _ _ _ _
        · calc 8 * bi + ti ≤ 8 * bi + (ti + min (8 - ti) bits) := by omega
            _ ≤ _ := ih _ _ _ _

theorem step_bound (acc tk chunk bits : Nat) (hc : chunk < 2 ^ tk) (htk : tk ≤ bits) :
    (acc * 2 ^ tk + chunk + 1) * 2 ^ (bits - tk) ≤ (acc + 1) * 2 ^ bits := by
  have h1 : acc * 2 ^ tk + chunk + 1 ≤ (acc + 1) * 2 ^ tk := by
    rw [add_mul, one_mul]; omega
  calc (acc * 2 ^ tk + chunk + 1) * 2 ^ (bits - tk)
      ≤ ((acc + 1) * 2 ^ tk) * 2 ^ (bits - tk) := Nat.mul_le_mul_right _ h1
    _ = (acc + 1) * 2 ^ bits := by
        rw [mul_assoc, ← pow_add, Nat.add_sub_cancel' htk]

theorem readLoop_lt (data : List Nat) :
    ∀ fuel bits byteIdx bitIdx acc,
      (readLoop data fuel bits byteIdx bitIdx acc).1 < (acc + 1) * 2 ^ bits := by
  intro fuel
  induction fuel with
  | zero =>
    intro bits bi ti acc
    have h2 : 1 ≤ 2 ^ bits := Nat.one_le_two_pow
    simp only [readLoop]
    calc acc < acc + 1 := Nat.lt_succ_self acc
      _ ≤ (acc + 1) * 2 ^ bits := Nat.le_mul_of_pos_right _ (by omega)
  | succ fuel ih =>
    intro bits bi ti acc
    simp only [readLoop]
    split
    · rename_i hbits
      subst hbits
      simp
    · split
      · exact mul_lt_mul_of_pos_right (Nat.lt_succ_self acc)
          (Nat.pos_pow_of_pos _ (by norm_num))
      · have hc : data.getD bi 0 % 256 / 2 ^ (8 - ti - min (8 - ti) bits) %
            2 ^ min (8 - ti) bits < 2 ^ min (8 - ti) bits :=
          Nat.mod_lt _ (Nat.pos_pow_of_pos _ (by norm_num))
        have htk : min (8 - ti) bits ≤ bits := Nat.min_le_right _ _
        split
        · exact lt_of_lt_of_le (ih _ _ _ _) (step_bound _ _ _ _ hc htk)
        · exact lt_of_lt_of_le (ih _ _ _ _) (step_bound _ _ _ _ hc htk)

theorem replicate_getD_zero : ∀ k i, (List.replicate k (0 : Nat)).getD i 0 = 0
  | 0, _ => rfl
  | _ + 1, 0 => rfl
  | k + 1, i + 1 => replicate_getD_zero k i

theorem readLoop_zero_suffix (data : List Nat) :
    ∀ fuel bits byteIdx bitIdx acc, bitIdx < 8 → bits ≤ fuel →
      (∀ j, byteIdx ≤ j → data.getD j 0 % 256 = 0) →
      (readLoop data fuel bits byteIdx bitIdx acc).1 = acc * 2 ^ bits := by
  intro fuel
  induction fuel with
  | zero =>
    intro bits bi ti acc ht hf hz
    have : bits = 0 := by omega
    subst this
    simp [readLoop]
  | succ fuel ih =>
    intro bits bi ti acc ht hf hz
    simp only [readLoop]
    split
    · rename_i hbits; subst hbits; simp
    · split
      · rfl
      · rename_i hbits hlen
        rw [hz bi le_rfl]
        have htk1 : 1 ≤ min (8 - ti) bits := by omega
        have htk2 : min (8 - ti) bits ≤ bits := Nat.min_le_right _ _
        have htk3 : min (8 - ti) bits ≤ 8 - ti := Nat.min_le_left _ _
        have hpow : 2 ^ min (8 - ti) bits * 2 ^ (bits - min (8 - ti) bits) = 2 ^ bits := by
          rw [← pow_add, Nat.add_sub_cancel' htk2]
        split
        · rw [ih _ _ _ _ (by norm_num) (by omega) (fun j hj => hz j (by omega))]
          simp only [Nat.zero_div, Nat.zero_mod, Nat.add_zero]
          rw [mul_assoc, hpow]
        · rw [ih _ _ _ _ (by omega) (by omega) hz]
          simp only [Nat.zero_div, Nat.zero_mod, Nat.add_zero]
          rw [mul_assoc, hpow]

theorem readLoop_append_zeros (data : List Nat) (k : Nat) :
    ∀ fuel bits byteIdx bitIdx acc, bitIdx < 8 → bits ≤ fuel →
      (readLoop (data ++ List.replicate k 0) fuel bits byteIdx bitIdx acc).1 =
        (readLoop data fuel bits byteIdx bitIdx acc).1 := by
  intro fuel
  induction fuel with
  | zero => intro bits bi ti acc ht hf; rfl
  | succ fuel ih =>
    intro bits bi ti acc ht hf
    by_cases hbits : bits = 0
    · subst hbits; simp [readLoop]
    · by_cases hlen : data.length ≤ bi
      · have hrhs : (readLoop data (fuel + 1) bits bi ti acc).1 = acc * 2 ^ bits := by
          simp [readLoop, hbits, hlen]
        rw [hrhs]
        refine readLoop_zero_suffix _ _ _ _ _ _ ht hf ?_
        intro j hj
        rcases Nat.lt_or_ge j (data.length + k) with hj2 | hj2
        · rw [List.getD_append_right _ _ _ _ (by omega), replicate_getD_zero]
        · rw [List.getD_eq_default _ _ (show (data ++ List.replicate k 0).length ≤ j by
            simp [List.length_append, List.length_replicate]; omega)]
      · have hbi : bi < (data ++ List.replicate k 0).length := by
          simp; omega
        simp only [readLoop, hbits, if_false, if_neg hlen, if_neg (not_le.mpr hbi), not_le.mp hlen]
        rw [List.getD_append _ _ _ _ (by omega)]
        split
        · exact ih _ _ _ _ (by norm_num) (by omega)
        · exact ih _ _ _ _ (by omega) (by omega)

/-! ## Micro-cube lemmas -/

theorem readIdStep_one (r : BitReader) (b lid : Nat) : readIdStep r 1 b lid = (lid, r) :=
  rfl

theorem resolveState_invalid_or_mem (gp : List String) (gid : Nat) :
    resolveState gp gid = "INVALID" ∨ resolveState gp gid ∈ gp := by
  unfold resolveState
  split
  · exact Or.inr (List.get_mem _ _ _)
  · exact Or.inl rfl

theorem decodeBlocks_state (gp : List String) (ltg : List Nat) (ps bpi : Nat) (sy : Int) :
    ∀ n r ly lxz lid bs r2,
      decodeBlocks gp ltg ps bpi sy n r ly lxz lid = some (bs, r2) →
      ∀ blk ∈ bs, blk.state = "INVALID" ∨ blk.state ∈ gp := by
  intro n
  induction n with
  | zero =>
    intro r ly lxz lid bs r2 h blk hm
    simp only [decodeBlocks, Option.some_inj, Prod.mk.injEq] at h
    rw [← h.1] at hm
    simp at hm
  | succ n ih =>
    intro r ly lxz lid bs r2 h blk hm
    simp only [decodeBlocks] at h
    split at h
    · exact absurd h (by simp)
    · rename_i gid hgid
      split at h
      · exact absurd h (by simp)
      · rename_i res hres
        simp only [Option.some_inj, Prod.mk.injEq] at h
        rw [← h.1] at hm
        rcases List.mem_cons.mp hm with hm1 | hm2
        · subst hm1
          exact resolveState_invalid_or_mem gp gid
        · exact ih _ _ _ _ _ _ hres blk hm2

theorem decodeBlocks_single (gp : List String) (g b : Nat) (sy : Int) :
    ∀ n r ly lxz bs r2,
      decodeBlocks gp [g] 1 b sy n r ly lxz 0 = some (bs, r2) →
      ∀ blk ∈ bs, blk.state = resolveState gp g := by
  intro n
  induction n with
  | zero =>
    intro r ly lxz bs r2 h blk hm
    simp only [decodeBlocks, Option.some_inj, Prod.mk.injEq] at h
    rw [← h.1] at hm
    simp at hm
  | succ n ih =>
    intro r ly lxz bs r2 h blk hm
    simp only [decodeBlocks, readIdStep_one, List.getElem?_cons_zero] at h
    split at h
    · exact absurd h (by simp)
    · rename_i res hres
      simp only [Option.some_inj, Prod.mk.injEq] at h
      rw [← h.1] at hm
      rcases List.mem_cons.mp hm with hm1 | hm2
      · subst hm1; rfl
      · exact ih _ _ _ _ _ hres blk hm2

theorem bitLenAux_eq : ∀ fuel n, n ≤ fuel →
    bitLenAux fuel n = if n = 0 then 0 else Nat.log 2 n + 1 := by
  intro fuel
  induction fuel with
  | zero => intro n hn; interval_cases n; rfl
  | succ fuel ih =>
    intro n hn
    by_cases h0 : n = 0
    · subst h0; rfl
    · have hlt : n / 2 < n := Nat.div_lt_self (by omega) (by norm_num)
      rw [show bitLenAux (fuel + 1) n = bitLenAux fuel (n / 2) + 1 by
            simp [bitLenAux, h0],
          ih (n / 2) (by omega), if_neg h0]
      by_cases h1 : n / 2 = 0
      · have : n = 1 := by omega
        subst this
        simp
      · have h2 : 2 ≤ n := by omega
        rw [if_neg h1, Nat.log_div_base]
        have : 0 < Nat.log 2 n := Nat.log_pos (by norm_num) h2
        omega

theorem bit_length_eq (n : Nat) :
    bit_length n = if n = 0 then 0 else Nat.log 2 n + 1 :=
  bitLenAux_eq n n le_rfl

theorem bitsPerId_eq_clog {p : Nat} (hp : 1 < p) : bitsPerId p = Nat.clog 2 p := by
  have hp1 : p - 1 ≠ 0 := by omega
  rw [bitsPerId, if_pos hp, bit_length_eq, if_neg hp1]
  apply le_antisymm
  · have h1 : 2 ^ Nat.log 2 (p - 1) ≤ p - 1 := Nat.pow_log_le_self 2 hp1
    have h2 : p ≤ 2 ^ Nat.clog 2 p := Nat.le_pow_clog (by norm_num) p
    have h3 : 2 ^ Nat.log 2 (p - 1) < 2 ^ Nat.clog 2 p := by omega
    have h4 : Nat.log 2 (p - 1) < Nat.clog 2 p :=
      (Nat.pow_lt_pow_iff_right (by norm_num)).mp h3
    omega
  · rw [← Nat.le_pow_iff_clog_le (by norm_num)]
    have h5 : p - 1 < 2 ^ (Nat.log 2 (p - 1) + 1) :=
      Nat.lt_pow_succ_log_self (by norm_num) (p - 1)
    omega

/-! ## Claim theorems -/

/-- C3: `BitReader.read n` is total (it is a Lean function, mirroring the
guarded Python loop that never indexes out of range), and for every buffer,
every cursor with the reachable-state invariant `bit_index < 8`, every `n`
and every zero-byte extension of the buffer, the value read is unchanged —
so the missing low-order bits past the end of the buffer behave exactly as
zero bits; moreover a read starting at or past the end of the buffer
returns 0 (all-missing bits are zero). -/
theorem C3_theorem (data : List Nat) (byteIdx bitIdx n k : Nat) (ht : bitIdx < 8) :
    (BitReader.read ⟨data ++ List.replicate k 0, byteIdx, bitIdx⟩ n).1 =
      (BitReader.read ⟨data, byteIdx, bitIdx⟩ n).1 ∧
    (data.length ≤ byteIdx → (BitReader.read ⟨data, byteIdx, bitIdx⟩ n).1 = 0) := by
  constructor
  · by_cases hn : n = 0
    · subst hn; rfl
    · simp only [BitReader.read, if_neg hn]
      exact readLoop_append_zeros data k n n byteIdx bitIdx 0 ht le_rfl
  · intro hlen
    by_cases hn : n = 0
    · subst hn; rfl
    · obtain ⟨m, rfl⟩ := Nat.exists_eq_succ_of_ne_zero hn
      simp [BitReader.read, readLoop, hlen]

/-- C3 witness: reading 12 bits from the one-byte buffer `[171]` returns the
same value as reading from the zero-extended buffer `[171, 0]`, and reading
with the cursor already past the end returns 0. -/
theorem C3_witness :
    ((BitReader.read ⟨[171] ++ List.replicate 1 0, 0, 0⟩ 12).1 =
       (BitReader.read ⟨[171], 0, 0⟩ 12).1 ∧
     (List.length [171] ≤ 0 → (BitReader.read ⟨[171], 0, 0⟩ 12).1 = 0)) ∧
    ((BitReader.read ⟨([] : List Nat) ++ List.replicate 2 0, 3, 0⟩ 8).1 =
       (BitReader.read ⟨[], 3, 0⟩ 8).1 ∧
     (List.length ([] : List Nat) ≤ 3 → (BitReader.read ⟨[], 3, 0⟩ 8).1 = 0)) :=
  ⟨C3_theorem [171] 0 0 12 1 (by decide), C3_theorem [] 3 0 8 2 (by decide)⟩

/-- C4: `read_zigzag n` returns exactly `zigzagDecode` — the literal
`(v >> 1) ^ -(v & 1)` — of the `n`-bit unsigned value `v` produced by
`read` (leaving the reader in the same state as that `read`), and
`zigzagDecode` maps the encoded values 0,1,2,3,4,5 to 0,-1,1,-2,2,-3; the
six images are pairwise distinct, so the mapping is a bijection between
those two six-element sets. -/
theorem C4_theorem :
    (∀ (r : BitReader) (bits : Nat),
        r.read_zigzag bits = (zigzagDecode (r.read bits).1, (r.read bits).2)) ∧
    [0, 1, 2, 3, 4, 5].map zigzagDecode = [0, -1, 1, -2, 2, -3] ∧
    ([0, 1, 2, 3, 4, 5].map zigzagDecode).Nodup := by
  refine ⟨fun r bits => rfl, by decide, by decide⟩

/-- C4 witness: the relation between `read_zigzag` and `read` evaluated at a
concrete reader. -/
theorem C4_witness :
    BitReader.read_zigzag ⟨[255], 0, 0⟩ 3 =
      (zigzagDecode (BitReader.read ⟨[255], 0, 0⟩ 3).1,
       (BitReader.read ⟨[255], 0, 0⟩ 3).2) :=
  C4_theorem.1 ⟨[255], 0, 0⟩ 3

/-- C10: every `read` preserves the cursor invariant `bit_index < 8`, never
decreases the absolute bit position `8 * byte_index + bit_index`, and its
value is always below `2 ^ n`, including reads running past the end of the
buffer. -/
theorem C10_theorem (r : BitReader) (n : Nat) (ht : r.bit_index < 8) :
    (r.read n).2.bit_index < 8 ∧
    8 * r.byte_index + r.bit_index ≤
      8 * (r.read n).2.byte_index + (r.read n).2.bit_index ∧
    (r.read n).1 < 2 ^ n := by
  by_cases hn : n = 0
  · subst hn
    exact ⟨ht, le_rfl, by simp [BitReader.read]⟩
  · simp only [BitReader.read, if_neg hn]
    refine ⟨readLoop_bitIdx_lt _ _ _ _ _ _ ht, readLoop_pos_le _ _ _ _ _ _, ?_⟩
    have := readLoop_lt r.data n n r.byte_index r.bit_index 0
    simpa using this

/-- C10 witness: the three invariants at a concrete reader and width,
a 7-bit read starting mid-byte that runs off the end of the buffer. -/
theorem C10_witness :
    (BitReader.read ⟨[171, 205], 1, 3⟩ 7).2.bit_index < 8 ∧
    8 * 1 + 3 ≤
      8 * (BitReader.read ⟨[171, 205], 1, 3⟩ 7).2.byte_index +
        (BitReader.read ⟨[171, 205], 1, 3⟩ 7).2.bit_index ∧
    (BitReader.read ⟨[171, 205], 1, 3⟩ 7).1 < 2 ^ 7 :=
  C10_theorem ⟨[171, 205], 1, 3⟩ 7 (by decide)

/-- C5: the id-selector width used by `decode_micro_cube` is
`(palette_size - 1).bit_length()`, which equals the ceiling base-2
logarithm `Nat.clog 2 palette_size` whenever the local palette has more
than one entry, and is 0 for a single-entry palette; with a single-entry
palette the id step of a block record consumes nothing at all (the reader
is returned untouched, so no flag bit and no selector bits are read for any
of the `block_count` records), and every successfully decoded block of such
a micro-cube resolves through local id 0, i.e. the unique local palette
entry `g`. -/
theorem C5_theorem :
    (∀ p, 1 < p → bitsPerId p = Nat.clog 2 p) ∧
    bitsPerId 1 = 0 ∧
    (∀ (r : BitReader) (b lid : Nat), readIdStep r 1 b lid = (lid, r)) ∧
    (∀ (gp : List String) (g b : Nat) (sy : Int) (n : Nat) (r : BitReader)
        (ly : Int) (lxz : Nat) (bs : List BlockChange) (r2 : BitReader),
      decodeBlocks gp [g] 1 b sy n r ly lxz 0 = some (bs, r2) →
      ∀ blk ∈ bs, blk.state = resolveState gp g) :=
  ⟨fun _ hp => bitsPerId_eq_clog hp, rfl, readIdStep_one,
   fun gp g b sy n _ _ _ _ _ h => decodeBlocks_single gp g b sy n _ _ _ _ _ h⟩

/-- C5 witness: the width formula applied at `palette_size = 5`, the
zero-consumption id step at a concrete reader, and the single-entry block
loop on a concrete one-record stream. -/
theorem C5_witness :
    bitsPerId 5 = Nat.clog 2 5 ∧
    readIdStep ⟨[7], 0, 3⟩ 1 9 4 = (4, ⟨[7], 0, 3⟩) ∧
    (∀ blk ∈ [(⟨0, 0, 0, "s"⟩ : BlockChange)], blk.state = resolveState ["s"] 0) :=
  ⟨C5_theorem.1 5 (by decide), C5_theorem.2.2.1 ⟨[7], 0, 3⟩ 9 4,
   C5_theorem.2.2.2 ["s"] 0 0 0 1 ⟨[], 0, 0⟩ 0 0
     [⟨0, 0, 0, "s"⟩] ⟨[], 0, 0⟩ (by decide)⟩

/-- C1, the claim as frozen, is FALSE on the code: `decode_micro_cube` can
raise on an out-of-range palette index.  Concrete input: a local palette of
size 3 (selector width 2), entries all 0, `block_count = 1`, one record
with dy-flag 0, xz-flag 0, id-flag 1 and selector value 3 — byte stream
`[3, 0,0, 0,0, 0,0, 2, 112]`.  `local_to_global[3]` then raises
`IndexError` (here: `none`), so decoding an out-of-range LOCAL id does not
degrade to "INVALID" and the block list is lost. -/
theorem C1_counterexample :
    CISDecoder.decode_micro_cube ⟨[3, 0, 0, 0, 0, 0, 0, 2, 112], 0, 0⟩ [] 0 0 0 0 =
      none := by
  decide

/-- C1 amended: an out-of-range GLOBAL id never fails — whenever the
resolved global id is at or past the end of the global palette the state
resolves to the literal "INVALID" — and consequently every block of a
successful micro-cube decode carries either "INVALID" or an entry of the
global palette; but (per `C1_counterexample`) a decoded local id at or past
the end of the LOCAL palette raises `IndexError` instead of degrading, so
the never-raises part of the claim is dropped for local ids. -/
theorem C1_theorem :
    (∀ (gp : List String) (gid : Nat), gp.length ≤ gid →
        resolveState gp gid = "INVALID") ∧
    (∀ (r : BitReader) (gp : List String) (mx my mz : Nat) (sy : Int)
        (bs : List BlockChange) (r2 : BitReader),
      CISDecoder.decode_micro_cube r gp mx my mz sy = some (bs, r2) →
      ∀ blk ∈ bs, blk.state = "INVALID" ∨ blk.state ∈ gp) := by
  constructor
  · intro gp gid hle
    rw [resolveState, dif_neg (by omega)]
  · intro r gp mx my mz sy bs r2 h blk hm
    rw [CISDecoder.decode_micro_cube] at h
    split at h
    · simp only [Option.some_inj, Prod.mk.injEq] at h
      rw [← h.1] at hm
      simp at hm
    · exact decodeBlocks_state _ _ _ _ _ _ _ _ _ _ _ _ h blk hm

/-- C1 witness: the INVALID degradation applied at a concrete out-of-range
global id, and the amended membership property applied to a concrete
micro-cube whose single block resolves to global id 5 while the global
palette has one entry. -/
theorem C1_witness :
    resolveState [] 7 = "INVALID" ∧
    (∀ blk ∈ [(⟨0, 0, 0, "INVALID"⟩ : BlockChange)],
      blk.state = "INVALID" ∨ blk.state ∈ ["a"]) :=
  ⟨C1_theorem.1 [] 7 (by decide),
   C1_theorem.2 ⟨[1, 0, 5, 2], 0, 0⟩ ["a"] 0 0 0 0
     [⟨0, 0, 0, "INVALID"⟩] ⟨[1, 0, 5, 2], 4, 0⟩ (by decide)⟩

theorem take4_cons (a b c d : Nat) (l : List Nat) :
    (a :: b :: c :: d :: l).take 4 = [a, b, c, d] := rfl

theorem drop4_cons (a b c d : Nat) (l : List Nat) :
    (a :: b :: c :: d :: l).drop 4 = l := rfl

/-- C2, the claim as frozen, is FALSE on the code: at src line 52 a fully
read 4-byte magic different from `0x43495334` makes `decode_chunk`
`return None` — the very same value as the empty-stream "no chunk" signal —
rather than raising a FormatError the caller could distinguish.  Concrete
input: the 4-byte payload `[0,0,0,0]` yields `noChunk`, identical to the
outcome on the empty payload. -/
theorem C2_counterexample :
    CISDecoder.decode_chunk emptyMapping [0, 0, 0, 0] = DecodeOutcome.noChunk ∧
    CISDecoder.decode_chunk emptyMapping [] = DecodeOutcome.noChunk := by
  constructor <;> rfl

/-- C2 amended: an empty stream at entry yields the no-chunk terminal
signal, and a fully-read 4-byte magic different from `0x43495334` yields
that SAME no-chunk signal (no FormatError, hence not distinguishable from
stream end), with no partial ChunkRecord returned in either case. -/
theorem C2_theorem :
    (∀ mapping : Nat → Option String,
        CISDecoder.decode_chunk mapping [] = DecodeOutcome.noChunk) ∧
    (∀ (mapping : Nat → Option String) (a b c d : Nat) (rest : List Nat),
      a * 16777216 + b * 65536 + c * 256 + d ≠ 0x43495334 →
      CISDecoder.decode_chunk mapping (a :: b :: c :: d :: rest) =
        DecodeOutcome.noChunk) := by
  constructor
  · intro mapping; rfl
  · intro mapping a b c d rest h
    simp only [CISDecoder.decode_chunk, take4_cons, drop4_cons, List.isEmpty_cons,
      Bool.false_eq_true, if_false, unpackU32]
    rw [if_pos h]

/-- C2 witness: the amended behavior at the concrete wrong-magic payload
`[1, 2, 3, 4, 9]` and at the empty payload. -/
theorem C2_witness :
    CISDecoder.decode_chunk emptyMapping (1 :: 2 :: 3 :: 4 :: [9]) =
      DecodeOutcome.noChunk ∧
    CISDecoder.decode_chunk emptyMapping [] = DecodeOutcome.noChunk :=
  ⟨C2_theorem.2 emptyMapping 1 2 3 4 [9] (by decide), C2_theorem.1 emptyMapping⟩

/-- C6: the micro-cube decoder is invoked through the triple list
`cubeOrder`, which has exactly 64 elements and whose `i`-th element is
`(mx, my, mz) = (i % 4, i / 16, i / 4 % 4)` — i.e. major-Y outermost, then
major-Z, then major-X, each over 0..3; decoding a concatenation of triple
lists concatenates the produced block lists in encounter order; and each
section first reads a 16-bit zigzag `section_y` and then folds the 64
cubes of `cubeOrder` in exactly that order, appending to the blocks of the
remaining sections. -/
theorem C6_theorem :
    List.length cubeOrder = 64 ∧
    (∀ i, i < 64 → cubeOrder.getD i (0, 0, 0) = (i % 4, i / 16, i / 4 % 4)) ∧
    (∀ (gp : List String) (sy : Int) (l1 l2 : List (Nat × Nat × Nat)) (r : BitReader),
      decodeMicroCubes gp sy (l1 ++ l2) r =
        match decodeMicroCubes gp sy l1 r with
        | none => none
        | some res =>
          match decodeMicroCubes gp sy l2 res.2 with
          | none => none
          | some res2 => some (res.1 ++ res2.1, res2.2)) ∧
    (∀ (gp : List String) (k : Nat) (r : BitReader),
      decodeSections gp (k + 1) r =
        match decodeMicroCubes gp (r.read_zigzag 16).1 cubeOrder (r.read_zigzag 16).2 with
        | none => none
        | some res =>
          match decodeSections gp k res.2 with
          | none => none
          | some res2 => some (res.1 ++ res2.1, res2.2)) := by
  refine ⟨by decide, by decide, ?_, fun gp k r => rfl⟩
  intro gp sy l1 l2 r
  induction l1 generalizing r with
  | nil =>
    simp only [List.nil_append, decodeMicroCubes]
    cases h : decodeMicroCubes gp sy l2 r with
    | none => rfl
    | some res2 => simp
  | cons c rest ih =>
    simp only [List.cons_append, decodeMicroCubes]
    cases h : CISDecoder.decode_micro_cube r gp c.1 c.2.1 c.2.2 sy with
    | none => rfl
    | some res =>
      have ih2 := ih res.2
      dsimp only
      rw [show List.append rest l2 = rest ++ l2 from rfl, ih2]
      cases h2 : decodeMicroCubes gp sy rest res.2 with
      | none => rfl
      | some resr =>
        dsimp only
        cases h3 : decodeMicroCubes gp sy l2 resr.2 with
        | none => rfl
        | some resl2 => dsimp only; simp [List.append_assoc]

/-- C6 witness: the indexing law applied at the concrete index 7, giving
the eighth invoked micro-cube coordinates `(mx, my, mz) = (3, 0, 1)`. -/
theorem C6_witness : cubeOrder.getD 7 (0, 0, 0) = (7 % 4, 7 / 16, 7 / 4 % 4) :=
  C6_theorem.2.1 7 (by decide)

/-! ## Byte-stream helper lemmas -/

theorem take_len_append (l1 l2 : List Nat) : (l1 ++ l2).take l1.length = l1 := by
  rw [List.take_append_eq_append_take, List.take_length, Nat.sub_self, List.take_zero,
    List.append_nil]

theorem drop_len_append (l1 l2 : List Nat) : (l1 ++ l2).drop l1.length = l2 := by
  rw [List.drop_append_eq_append_drop, List.drop_length, Nat.sub_self, List.drop_zero,
    List.nil_append]

theorem take4_magic (l : List Nat) : (magicBytes ++ l).take 4 = magicBytes := rfl

theorem drop4_magic (l : List Nat) : (magicBytes ++ l).drop 4 = l := rfl

theorem take4_u32be (n : Nat) (l : List Nat) : (u32be n ++ l).take 4 = u32be n := rfl

theorem drop4_u32be (n : Nat) (l : List Nat) : (u32be n ++ l).drop 4 = l := rfl

theorem unpackU32_magic : unpackU32 magicBytes = some 0x43495334 := rfl

theorem unpackU32_u32be {n : Nat} (h : n < 4294967296) :
    unpackU32 (u32be n) = some n := by
  simp only [u32be, unpackU32, Option.some_inj]
  omega

theorem unpackU32_none_of_length : ∀ (bs : List Nat), bs.length ≠ 4 → unpackU32 bs = none
  | [], _ => rfl
  | [_], _ => rfl
  | [_, _], _ => rfl
  | [_, _, _], _ => rfl
  | [_, _, _, _], h => absurd rfl h
  | _ :: _ :: _ :: _ :: _ :: _, _ => rfl

theorem readGlobalPalette_zero (mapping : Nat → Option String) (f : List Nat) :
    readGlobalPalette mapping 0 f = some ([], f) := rfl

theorem readGlobalPalette_short (mapping : Nat → Option String) :
    ∀ (k : Nat) (f : List Nat), 0 < k → f.length < 3 →
      readGlobalPalette mapping k f = none := by
  intro k f hk hf
  rcases k with _ | k
  · omega
  · rcases f with _ | ⟨a, _ | ⟨b, _ | ⟨c, t⟩⟩⟩
    · rfl
    · rfl
    · rfl
    · simp at hf; omega

theorem decodeSections_zero (gp : List String) (r : BitReader) :
    decodeSections gp 0 r = some ([], r) := rfl

/-- C7: a payload with valid magic, `palette_size = 0` and an instruction
stream whose leading 16-bit `section_count` is 0 decodes to a ChunkRecord
with an empty block list and `be_count` equal to the trailing big-endian
u32 as read — or 0 when the stream is exhausted (the trailing read returns
no bytes at all). -/
theorem C7_theorem (mapping : Nat → Option String) (version : Nat)
    (instData tl : List Nat) (hv : version < 4294967296)
    (hi : List.length instData < 4294967296)
    (hsec : (BitReader.read ⟨instData, 0, 0⟩ 16).1 = 0)
    (htail : tl = [] ∨ 4 ≤ tl.length) :
    CISDecoder.decode_chunk mapping
      (magicBytes ++ u32be version ++ u32be 0 ++ u32be instData.length ++
        instData ++ tl) =
      DecodeOutcome.chunk ⟨version, [], [],
        if tl.isEmpty then 0 else (unpackU32 (tl.take 4)).getD 0⟩ := by
  simp only [List.append_assoc]
  simp only [CISDecoder.decode_chunk, take4_magic, drop4_magic, unpackU32_magic,
    take4_u32be, drop4_u32be, unpackU32_u32be hv, unpackU32_u32be hi,
    show unpackU32 (u32be 0) = some 0 from rfl,
    show magicBytes.isEmpty = false from rfl, Bool.false_eq_true, if_false,
    ne_eq, not_true_eq_false, readGlobalPalette_zero,
    take_len_append, drop_len_append, hsec, decodeSections_zero]
  rcases htail with htl | htl
  · subst htl
    rfl
  · rcases tl with _ | ⟨a, _ | ⟨b, _ | ⟨c, _ | ⟨d, rest⟩⟩⟩⟩ <;> simp at htl ⊢
    rfl

/-- C7 witness: a concrete minimal chunk — empty global palette, empty
instruction stream (whose 16-bit section count reads as 0 by the lenient
EOF rule) and trailing count bytes `[0,0,0,9]` — decodes to the record with
no blocks and `be_count = 9`. -/
theorem C7_witness :
    CISDecoder.decode_chunk emptyMapping
      (magicBytes ++ u32be 7 ++ u32be 0 ++ u32be (List.length ([] : List Nat)) ++
        ([] : List Nat) ++ [0, 0, 0, 9]) =
      DecodeOutcome.chunk ⟨7, [], [],
        if ([0, 0, 0, 9] : List Nat).isEmpty then 0
        else (unpackU32 (([0, 0, 0, 9] : List Nat).take 4)).getD 0⟩ :=
  C7_theorem emptyMapping 7 [] [0, 0, 0, 9] (by decide) (by decide) (by decide)
    (Or.inr (by decide))

/-- C9: the lenient truncation handling of `decode_chunk` stops at the
fixed-width header fields — every truncation inside one of them raises
(`struct.error` from a short `unpack`, or `ord` of an empty read), i.e.
produces the `err` outcome, never a zero-defaulted record: (1) a non-empty
1-3 byte magic read; (2) fewer than 4 bytes for `version`; (3) fewer than 4
bytes for `palette_size`; (4) a truncated first global-palette entry (fewer
than its 3 bytes) with `palette_size ≥ 1`; (5) fewer than 4 bytes for
`inst_len`; (6) 1-3 bytes remaining at `block_entity_count`. -/
theorem C9_theorem :
    (∀ (mapping : Nat → Option String) (bs : List Nat), bs ≠ [] → bs.length < 4 →
      CISDecoder.decode_chunk mapping bs = DecodeOutcome.err) ∧
    (∀ (mapping : Nat → Option String) (bs : List Nat), bs.length < 4 →
      CISDecoder.decode_chunk mapping (magicBytes ++ bs) = DecodeOutcome.err) ∧
    (∀ (mapping : Nat → Option String) (v : Nat) (bs : List Nat),
      v < 4294967296 → bs.length < 4 →
      CISDecoder.decode_chunk mapping (magicBytes ++ u32be v ++ bs) =
        DecodeOutcome.err) ∧
    (∀ (mapping : Nat → Option String) (v ps : Nat) (bs : List Nat),
      v < 4294967296 → 0 < ps → ps < 4294967296 → bs.length < 3 →
      CISDecoder.decode_chunk mapping (magicBytes ++ u32be v ++ u32be ps ++ bs) =
        DecodeOutcome.err) ∧
    (∀ (mapping : Nat → Option String) (v : Nat) (bs : List Nat),
      v < 4294967296 → bs.length < 4 →
      CISDecoder.decode_chunk mapping (magicBytes ++ u32be v ++ u32be 0 ++ bs) =
        DecodeOutcome.err) ∧
    (∀ (mapping : Nat → Option String) (v : Nat) (instData tl : List Nat),
      v < 4294967296 → List.length instData < 4294967296 → tl ≠ [] → tl.length < 4 →
      CISDecoder.decode_chunk mapping
        (magicBytes ++ u32be v ++ u32be 0 ++ u32be instData.length ++ instData ++ tl) =
        DecodeOutcome.err) := by
  refine ⟨?_, ?_, ?_, ?_, ?_, ?_⟩
  · intro mapping bs hne hlen
    rcases bs with _ | ⟨a, t⟩
    · exact absurd rfl hne
    · simp only [List.length_cons] at hlen
      simp only [CISDecoder.decode_chunk,
        List.take_of_length_le (by simp; omega : (a :: t).length ≤ 4),
        List.isEmpty_cons, Bool.false_eq_true, if_false,
        unpackU32_none_of_length (a :: t) (by simp; omega)]
  · intro mapping bs hlen
    simp only [List.append_assoc, CISDecoder.decode_chunk, take4_magic, drop4_magic,
      unpackU32_magic, show magicBytes.isEmpty = false from rfl, Bool.false_eq_true,
      if_false, ne_eq, not_true_eq_false,
      List.take_of_length_le (by omega : bs.length ≤ 4),
      unpackU32_none_of_length bs (by omega)]
  · intro mapping v bs hv hlen
    simp only [List.append_assoc, CISDecoder.decode_chunk, take4_magic, drop4_magic,
      unpackU32_magic, take4_u32be, drop4_u32be, unpackU32_u32be hv,
      show magicBytes.isEmpty = false from rfl, Bool.false_eq_true, if_false, ne_eq,
      not_true_eq_false,
      List.take_of_length_le (by omega : bs.length ≤ 4),
      unpackU32_none_of_length bs (by omega)]
  · intro mapping v ps bs hv hps hps2 hlen
    simp only [List.append_assoc, CISDecoder.decode_chunk, take4_magic, drop4_magic,
      unpackU32_magic, take4_u32be, drop4_u32be, unpackU32_u32be hv,
      unpackU32_u32be hps2, show magicBytes.isEmpty = false from rfl,
      Bool.false_eq_true, if_false, ne_eq, not_true_eq_false,
      readGlobalPalette_short mapping ps bs hps hlen]
  · intro mapping v bs hv hlen
    simp only [List.append_assoc, CISDecoder.decode_chunk, take4_magic, drop4_magic,
      unpackU32_magic, take4_u32be, drop4_u32be, unpackU32_u32be hv,
      show unpackU32 (u32be 0) = some 0 from rfl,
      show magicBytes.isEmpty = false from rfl, Bool.false_eq_true, if_false, ne_eq,
      not_true_eq_false, readGlobalPalette_zero,
      List.take_of_length_le (by omega : bs.length ≤ 4),
      unpackU32_none_of_length bs (by omega)]
  · intro mapping v instData tl hv hi hne hlen
    simp only [List.append_assoc, CISDecoder.decode_chunk, take4_magic, drop4_magic,
      unpackU32_magic, take4_u32be, drop4_u32be, unpackU32_u32be hv,
      unpackU32_u32be hi, show unpackU32 (u32be 0) = some 0 from rfl,
      show magicBytes.isEmpty = false from rfl, Bool.false_eq_true, if_false, ne_eq,
      not_true_eq_false, readGlobalPalette_zero, take_len_append, drop_len_append,
      List.take_of_length_le (by omega : tl.length ≤ 4),
      unpackU32_none_of_length tl (by omega)]
    rcases tl with _ | ⟨a, t⟩
    · exact absurd rfl hne
    · simp

/-- C9 witness: the magic-field case applied at the concrete 1-byte payload
`[0]`, and the trailing-count case at a payload whose final field holds
only 2 of its 4 bytes. -/
theorem C9_witness :
    CISDecoder.decode_chunk emptyMapping [0] = DecodeOutcome.err ∧
    CISDecoder.decode_chunk emptyMapping
      (magicBytes ++ u32be 1 ++ u32be 0 ++ u32be (List.length ([] : List Nat)) ++
        ([] : List Nat) ++ [0, 5]) = DecodeOutcome.err :=
  ⟨C9_theorem.1 emptyMapping [0] (by decide) (by decide),
   C9_theorem.2.2.2.2.2 emptyMapping 1 [] [0, 5] (by decide) (by decide) (by decide)
     (by decide)⟩

/-! ## Region lemmas -/

theorem parseRegionGo_succ (decompress : List Nat → Option (List Nat))
    (mapping : Nat → Option String) (fileData header : List Nat) (i k : Nat) :
    parseRegionGo decompress mapping fileData header i (k + 1) =
      (slotDecode decompress mapping fileData header i).toList ++
        parseRegionGo decompress mapping fileData header (i + 1) k := by
  simp only [parseRegionGo, slotDecode]
  congr 1
  split
  · split
    · split
      · rfl
      · split <;> rfl
    · rfl
  · rfl

theorem parseRegionGo_eq_filterMap (decompress : List Nat → Option (List Nat))
    (mapping : Nat → Option String) (fileData header : List Nat) :
    ∀ k i, parseRegionGo decompress mapping fileData header i k =
      (List.range' i k).filterMap (slotDecode decompress mapping fileData header) := by
  intro k
  induction k with
  | zero => intro i; rfl
  | succ k ih =>
    intro i
    rw [parseRegionGo_succ, List.range'_succ, List.filterMap_cons, ih (i + 1)]
    cases h : slotDecode decompress mapping fileData header i <;> simp

/-- C8: region parsing visits all 256 offset-table slots independently —
`parse_region` equals the `filterMap` of the per-slot function `slotDecode`
over slot indices 0..255, in which a failing slot (decompression error,
decoding exception, or a `None` chunk) contributes nothing while iteration
proceeds — and `slotDecode` reads the region file only through the slot's
own `[offset, offset+length)` byte range, so two region files agreeing on a
slot's range (e.g. one with other slots corrupted) give that slot the same
result. -/
theorem C8_theorem :
    (∀ (decompress : List Nat → Option (List Nat)) (mapping : Nat → Option String)
        (fileData header : List Nat),
      CISVisualizer.parse_region decompress mapping fileData header =
        (List.range 256).filterMap (slotDecode decompress mapping fileData header)) ∧
    (∀ (decompress : List Nat → Option (List Nat)) (mapping : Nat → Option String)
        (fd1 fd2 header : List Nat) (i off len : Nat),
      unpackU32 ((header.drop (i * 8)).take 4) = some off →
      unpackU32 ((header.drop (i * 8 + 4)).take 4) = some len →
      (fd1.drop off).take len = (fd2.drop off).take len →
      slotDecode decompress mapping fd1 header i =
        slotDecode decompress mapping fd2 header i) := by
  constructor
  · intro decompress mapping fileData header
    rw [CISVisualizer.parse_region, parseRegionGo_eq_filterMap, List.range_eq_range']
  · intro decompress mapping fd1 fd2 header i off len h1 h2 h3
    simp only [slotDecode, h1, h2, h3]

/-- C8 witness: two region files differing outside slot 0's byte range give
slot 0 the same result, and the filterMap factorization at concrete empty
inputs. -/
theorem C8_witness :
    slotDecode (fun _ => none) emptyMapping [9, 7] [0, 0, 0, 1, 0, 0, 0, 1] 0 =
      slotDecode (fun _ => none) emptyMapping [8, 7, 6] [0, 0, 0, 1, 0, 0, 0, 1] 0 ∧
    CISVisualizer.parse_region (fun _ => none) emptyMapping [] [] =
      (List.range 256).filterMap (slotDecode (fun _ => none) emptyMapping [] []) :=
  ⟨C8_theorem.2 (fun _ => none) emptyMapping [9, 7] [8, 7, 6] [0, 0, 0, 1, 0, 0, 0, 1]
     0 1 1 (by decide) (by decide) (by decide),
   C8_theorem.1 (fun _ => none) emptyMapping [] []⟩
